/-
Verification of the OpenSquirrel core: numeric primitives, IR node model,
named-callable metadata protocol and the ABA decomposition engine.

The Lean definitions below are a shallow embedding of the Python sources
`opensquirrel/ir.py`, `opensquirrel/decomposer/aba_decomposer.py` and
`opensquirrel/default_measurements.py`.  Modules of the repository that are
not part of the provided sources (`opensquirrel/common.py`,
`opensquirrel/default_gates.py`, `opensquirrel/utils/identity_filter.py` and
the circuit-matrix compiler) are modelled from the specification; every such
definition carries a doc comment starting with "Modelled from the spec".

Floating-point numbers are modelled as real numbers; Python `math`
functions are modelled by their exact real counterparts.
-/
import Mathlib

namespace OpenSquirrel

open Real

/-- Modelled from the spec: `opensquirrel.common.ATOL`, the numeric tolerance
("ATOL, default 1e-8 scale", spec section 3). -/
def ATOL : ℝ := 1e-8

/-- Modelled from the spec: `opensquirrel.common.normalize_angle`, which
"maps any real angle into (−π, π] by modular reduction" (spec section 4.2). -/
noncomputable def normalize_angle (a : ℝ) : ℝ := a - 2 * π * ⌈(a - π) / (2 * π)⌉

lemma ATOL_pos : (0 : ℝ) < ATOL := by norm_num [ATOL]

lemma ATOL_lt_one : ATOL < (1 : ℝ) := by norm_num [ATOL]

lemma normalize_angle_eq_self {x : ℝ} (h1 : -π < x) (h2 : x ≤ π) :
    normalize_angle x = x := by
  have hpi : (0 : ℝ) < π := Real.pi_pos
  have hc : ⌈(x - π) / (2 * π)⌉ = 0 := by
    rw [Int.ceil_eq_zero_iff]
    constructor
    · rw [lt_div_iff₀ (by linarith)]
      linarith
    · apply div_nonpos_of_nonpos_of_nonneg <;> linarith
  simp [normalize_angle, hc]

lemma normalize_angle_mem {x : ℝ} :
    -π < normalize_angle x ∧ normalize_angle x ≤ π := by
  have hpi : (0 : ℝ) < π := Real.pi_pos
  have h2pi : (0 : ℝ) < 2 * π := by linarith
  have hle : ((x - π) / (2 * π) : ℝ) ≤ ⌈(x - π) / (2 * π)⌉ := Int.le_ceil _
  have hlt : (⌈(x - π) / (2 * π)⌉ : ℝ) < (x - π) / (2 * π) + 1 := Int.ceil_lt_add_one _
  constructor
  · have := (mul_lt_mul_right h2pi).2 hlt
    rw [div_add_one (ne_of_gt h2pi), div_mul_cancel₀ _ (ne_of_gt h2pi)] at this
    have h2 : 2 * π * (⌈(x - π) / (2 * π)⌉ : ℝ) < x + π := by nlinarith [this]
    simp only [normalize_angle]; linarith
  · have := (mul_le_mul_right h2pi).2 hle
    rw [div_mul_cancel₀ _ (ne_of_gt h2pi)] at this
    have h2 : x - π ≤ 2 * π * (⌈(x - π) / (2 * π)⌉ : ℝ) := by nlinarith [this]
    simp only [normalize_angle]; linarith

/-- A 3-component real vector, the underlying data of an `Axis`. -/
abbrev Vec3 : Type := ℝ × ℝ × ℝ

/-- Positional component access of an axis (`Axis.__getitem__`,
indices 0,1,2 = x,y,z). -/
def comp (v : Vec3) : Fin 3 → ℝ
  | 0 => v.1
  | 1 => v.2.1
  | 2 => v.2.2

/-- The Euclidean norm used by `Axis._normalize_axis`
(`np.linalg.norm(axis)`). -/
noncomputable def norm3 (v : Vec3) : ℝ :=
  Real.sqrt (v.1 ^ 2 + v.2.1 ^ 2 + v.2.2 ^ 2)

/-- `Axis._normalize_axis`: divide the stored vector by its Euclidean norm.
This is the value stored by the `Axis` constructor. -/
noncomputable def normAxis (v : Vec3) : Vec3 :=
  (v.1 / norm3 v, v.2.1 / norm3 v, v.2.2 / norm3 v)

/-- The negated vector, as in `-other.axis.value`. -/
def negV (v : Vec3) : Vec3 := (-v.1, -v.2.1, -v.2.2)

lemma norm3_nonneg (v : Vec3) : 0 ≤ norm3 v := Real.sqrt_nonneg _

lemma abs_comp_le_norm3 (v : Vec3) (i : Fin 3) : |comp v i| ≤ norm3 v := by
  have h1 : |comp v i| = Real.sqrt ((comp v i) ^ 2) := (Real.sqrt_sq_eq_abs _).symm
  rw [h1]
  apply Real.sqrt_le_sqrt
  fin_cases i <;> simp [comp] <;> nlinarith [sq_nonneg v.1, sq_nonneg v.2.1, sq_nonneg v.2.2]

/-- Components of a normalized axis always lie in [−1, 1] (including the
degenerate zero-vector case, where division by zero yields zero). -/
lemma abs_comp_normAxis_le_one (v : Vec3) (i : Fin 3) :
    |comp (normAxis v) i| ≤ 1 := by
  rcases eq_or_lt_of_le (norm3_nonneg v) with h | h
  · have hz : norm3 v = 0 := h.symm
    fin_cases i <;> simp [normAxis, comp, hz]
  · have hb := abs_comp_le_norm3 v i
    have : ∀ x : ℝ, |x| ≤ norm3 v → |x / norm3 v| ≤ 1 := by
      intro x hx
      rw [abs_div, abs_of_pos h, div_le_one h]
      exact hx
    fin_cases i <;>
      [exact this v.1 (abs_comp_le_norm3 v 0);
       exact this v.2.1 (abs_comp_le_norm3 v 1);
       exact this v.2.2 (abs_comp_le_norm3 v 2)]

lemma norm3_normAxis (v : Vec3) (h : norm3 v ≠ 0) : norm3 (normAxis v) = 1 := by
  have hpos : 0 < norm3 v := lt_of_le_of_ne (norm3_nonneg v) (Ne.symm h)
  have hsq : norm3 v ^ 2 = v.1 ^ 2 + v.2.1 ^ 2 + v.2.2 ^ 2 :=
    Real.sq_sqrt (by positivity)
  have hsum : (v.1 / norm3 v) ^ 2 + (v.2.1 / norm3 v) ^ 2 + (v.2.2 / norm3 v) ^ 2 = 1 := by
    field_simp
    linarith [hsq]
  have hdef : norm3 (normAxis v) =
      Real.sqrt ((v.1 / norm3 v) ^ 2 + (v.2.1 / norm3 v) ^ 2 + (v.2.2 / norm3 v) ^ 2) := rfl
  rw [hdef, hsum, Real.sqrt_one]

lemma normAxis_idem (v : Vec3) : normAxis (normAxis v) = normAxis v := by
  by_cases h : norm3 v = 0
  · have hz1 : v.1 ^ 2 + v.2.1 ^ 2 + v.2.2 ^ 2 = 0 := by
      by_contra hne
      have hpos : 0 < v.1 ^ 2 + v.2.1 ^ 2 + v.2.2 ^ 2 :=
        lt_of_le_of_ne (by positivity) (Ne.symm hne)
      exact absurd h (ne_of_gt (Real.sqrt_pos.2 hpos))
    have h1 : v.1 = 0 := by nlinarith [sq_nonneg v.1, sq_nonneg v.2.1, sq_nonneg v.2.2]
    have h2 : v.2.1 = 0 := by nlinarith [sq_nonneg v.1, sq_nonneg v.2.1, sq_nonneg v.2.2]
    have h3 : v.2.2 = 0 := by nlinarith [sq_nonneg v.1, sq_nonneg v.2.1, sq_nonneg v.2.2]
    simp [normAxis, norm3, h1, h2, h3]
  · have h1 := norm3_normAxis v h
    have hdef : normAxis (normAxis v) =
        ((normAxis v).1 / norm3 (normAxis v), (normAxis v).2.1 / norm3 (normAxis v),
          (normAxis v).2.2 / norm3 (normAxis v)) := rfl
    rw [hdef, h1]
    simp

/-- Python `math.copysign(x, s)`: the magnitude of `x` with the sign of `s`
(sign of real zero taken positive). -/
noncomputable def copysign (x s : ℝ) : ℝ := if s < 0 then -|x| else |x|

lemma abs_copysign (x s : ℝ) : |copysign x s| = |x| := by
  unfold copysign
  split <;> simp

lemma copysign_of_nonneg (x : ℝ) {s : ℝ} (hs : 0 ≤ s) : copysign x s = |x| := by
  unfold copysign
  rw [if_neg (not_lt.2 hs)]

/-- The clamping of an acos argument into [−1, 1]:
`max(min(acos_argument, 1.0), -1.0)`. -/
noncomputable def clamp (x : ℝ) : ℝ := max (min x 1) (-1)

lemma clamp_of_mem {x : ℝ} (h1 : -1 ≤ x) (h2 : x ≤ 1) : clamp x = x := by
  unfold clamp
  rw [min_eq_left h2, max_eq_left h1]

/-- Python `math.atan2(y, x)`. Only the `x > 0` branch is reachable in the
proofs below; the other branches model the C/Python convention. -/
noncomputable def atan2 (y x : ℝ) : ℝ :=
  if 0 < x then Real.arctan (y / x)
  else if x < 0 ∧ 0 ≤ y then Real.arctan (y / x) + π
  else if x < 0 ∧ y < 0 then Real.arctan (y / x) - π
  else if x = 0 ∧ 0 < y then π / 2
  else if x = 0 ∧ y < 0 then -(π / 2)
  else 0

lemma atan2_pos_x (y x : ℝ) (hx : 0 < x) : atan2 y x = Real.arctan (y / x) := by
  unfold atan2
  rw [if_pos hx]

/-! ## IR node model (`opensquirrel/ir.py`) -/

/-- `numpy.isclose` with numpy's default tolerances
(`rtol = 1e-5`, `atol = 1e-8`): `|a - b| <= atol + rtol * |b|`.
This is the scalar comparison underlying the bare `np.allclose(x, y)`
calls in `BlochSphereRotation.__eq__`. -/
def npCloseDefault (a b : ℝ) : Prop := |a - b| ≤ 1e-8 + 1e-5 * |b|

/-- `numpy.isclose` with `atol = ATOL` passed explicitly and `rtol` left at
its numpy default `1e-5`, as in `Measure.__eq__`
(`np.allclose(self.axis, other.axis, atol=ATOL)`). -/
def npCloseAtol (a b : ℝ) : Prop := |a - b| ≤ ATOL + 1e-5 * |b|

/-- `np.allclose` (default tolerances) on the three components of two axes. -/
def npAllcloseV (u v : Vec3) : Prop :=
  npCloseDefault u.1 v.1 ∧ npCloseDefault u.2.1 v.2.1 ∧ npCloseDefault u.2.2 v.2.2

/-- `np.allclose(..., atol=ATOL)` on the three components of two axes. -/
def npAllcloseAtolV (u v : Vec3) : Prop :=
  npCloseAtol u.1 v.1 ∧ npCloseAtol u.2.1 v.2.1 ∧ npCloseAtol u.2.2 v.2.2

/-- `Axis.__eq__`: `np.array_equal(self, other)`, i.e. exact componentwise
equality of the two stored (normalized) vectors.  The `isinstance` guard of
the source is subsumed by typing both sides as stored axis vectors. -/
def axisEq (a b : Vec3) : Prop := a = b

/-- `BlochSphereRotation` with its stored fields.  The constructor
(`mkBSR` below) normalizes the axis and both angles, exactly as
`BlochSphereRotation.__init__` does.  The generator/arguments metadata is
modelled separately (`PyNode` below); the source comment states it is
excluded from equality. -/
structure BSR where
  qubit : ℕ
  axis : Vec3
  angle : ℝ
  phase : ℝ

/-- `BlochSphereRotation.__init__`: store the qubit, the normalized axis and
the angle and phase normalized into (−π, π]. -/
noncomputable def mkBSR (q : ℕ) (v : Vec3) (angle phase : ℝ) : BSR :=
  ⟨q, normAxis v, normalize_angle angle, normalize_angle phase⟩

open Classical in
/-- `BlochSphereRotation.__eq__`, with the source's early-return control flow
rendered as a cascade of conditionals:
qubit mismatch → unequal; `|Δphase| > ATOL` → unequal;
`np.allclose(axis, axis')` (numpy default tolerances) → decide by
`|Δangle| < ATOL`; else `np.allclose(axis, -axis')` → decide by
`|angle + angle'| < ATOL`; else unequal. -/
noncomputable def bsrEq (x y : BSR) : Prop :=
  if x.qubit ≠ y.qubit then False
  else if |x.phase - y.phase| > ATOL then False
  else if npAllcloseV x.axis y.axis then |x.angle - y.angle| < ATOL
  else if npAllcloseV x.axis (negV y.axis) then |x.angle + y.angle| < ATOL
  else False

/-- `BlochSphereRotation.is_identity`: angle and phase (already normalized)
both within ATOL of zero. -/
noncomputable def bsrIsIdentity (x : BSR) : Prop :=
  |x.angle| < ATOL ∧ |x.phase| < ATOL

/-- A `Measure` node with its stored fields (`Measure.__init__` stores the
qubit, the classical bit, the normalized axis, and the generator/arguments
metadata). -/
structure MeasureN where
  qubit : ℕ
  bit : ℕ
  axis : Vec3
  genName : Option String
  argsMeta : Option (List ℤ)

/-- `Measure.__init__`: the axis is normalized via the `Axis` constructor. -/
noncomputable def mkMeasure (q b : ℕ) (v : Vec3) (g : Option String)
    (a : Option (List ℤ)) : MeasureN :=
  ⟨q, b, normAxis v, g, a⟩

/-- `Measure.__eq__`: same qubit and
`np.allclose(self.axis, other.axis, atol=ATOL)`.  The bit and the
generator/arguments metadata are not consulted. -/
def measureEq (x y : MeasureN) : Prop :=
  x.qubit = y.qubit ∧ npAllcloseAtolV x.axis y.axis

/-- The shape and entries of a dense numpy matrix, as handed to
`MatrixGate.__init__`.  Construction only inspects `shape`; entries
(modelled as complex numbers in row-major rows) are stored unchanged. -/
structure NPMatrix where
  shape : ℕ × ℕ
  entries : List (List ℂ)

/-- A constructed `MatrixGate` stores the matrix and operands unchanged. -/
structure MatrixGate where
  matrix : NPMatrix
  operands : List ℕ

/-- The construction-time error kinds of `MatrixGate.__init__`
(spec section 7 names). -/
inductive MatrixGateError where
  | invalidOperandCount
  | duplicateOperand
  | matrixShapeMismatch
deriving DecidableEq

/-- `MatrixGate.__init__`: reject fewer than 2 operands, repeated operand
qubits (`len(qubits) != len(set(qubits))`, i.e. the operand list is not
duplicate-free), and a matrix whose shape is not
`(1 << len(operands), 1 << len(operands))`; otherwise store matrix and
operands unchanged. -/
def mkMatrixGate (matrix : NPMatrix) (operands : List ℕ) :
    Except MatrixGateError MatrixGate :=
  if operands.length < 2 then .error .invalidOperandCount
  else if ¬ operands.Nodup then .error .duplicateOperand
  else if matrix.shape ≠ (2 ^ operands.length, 2 ^ operands.length) then
    .error .matrixShapeMismatch
  else .ok ⟨matrix, operands⟩

/-- The `Gate` family: a Bloch-sphere rotation, a matrix gate, or a
controlled gate wrapping a target gate. -/
inductive Gate where
  | bsr (b : BSR)
  | matrixGate (g : MatrixGate)
  | controlled (control : ℕ) (target : Gate)

/-- Whether a gate is a `BlochSphereRotation`
(the `isinstance(g, BlochSphereRotation)` test in `decompose`). -/
def Gate.isBSRGate : Gate → Bool
  | .bsr _ => true
  | _ => false

/-! ## Named-callable metadata protocol (`named_gate`, `named_measurement`,
`named_reset` in `ir.py`)

A Python generator function is modelled by its declared parameter list
(names, each with an optional default value) together with a deterministic
body mapping the bound argument values (in declaration order) to an optional
payload (`none` models the body raising).  A call site supplies positional
arguments and keyword arguments; Python's call-time binding is modelled by
`pyBind`, and the wrapper's own argument-reconstruction loop (iterating
`inspect.signature(...).parameters` with a running positional index) by
`wrapperArgs`. -/

/-- An IR node as produced by a registration wrapper: the payload built by
the wrapped generator plus the captured `arguments` tuple.  The node's
`generator` field is the wrapper itself, so re-invoking `node.generator` is
modelled by applying the same wrapper again. -/
structure PyNode (P V : Type) where
  payload : P
  arguments : Option (List V)
deriving DecidableEq

/-- Python call binding, positional phase: consume positional arguments
left-to-right against the declared parameters; once they are exhausted,
bind the remaining parameters from keywords or their declared defaults,
failing (`none`) on a missing required argument or surplus positional
arguments. -/
def pyBindAux {V : Type} : List (String × Option V) → List V → List (String × V) →
    Option (List V)
  | [], [], _ => some []
  | [], _ :: _, _ => none
  | _ :: ps, a :: as, kwargs => (pyBindAux ps as kwargs).map (a :: ·)
  | p :: ps, [], kwargs =>
    match List.lookup p.1 kwargs with
    | some v => (pyBindAux ps [] kwargs).map (v :: ·)
    | none =>
      match p.2 with
      | some d => (pyBindAux ps [] kwargs).map (d :: ·)
      | none => none

/-- Python call binding (the semantics of `f(*args, **kwargs)` for a
function with declared parameters `params`): reject a keyword for a
positionally-bound parameter ("multiple values") and an unknown keyword
("unexpected keyword argument"), then bind as in `pyBindAux`.  On success
the result lists the bound values in declaration order. -/
def pyBind {V : Type} (params : List (String × Option V)) (args : List V)
    (kwargs : List (String × V)) : Option (List V) :=
  if (params.take args.length).any (fun p => (List.lookup p.1 kwargs).isSome) then none
  else if kwargs.any (fun kv => params.all (fun p => !(p.1 == kv.1))) then none
  else pyBindAux params args kwargs

/-- The wrapper's argument-reconstruction loop:
for each declared parameter, take the keyword value if the caller passed it
as a keyword, otherwise take the next unconsumed positional argument
(`args[arg_index]; arg_index += 1`); running out of positional arguments is
an `IndexError` (`none`). -/
def wrapperArgs {V : Type} : List (String × Option V) → List V → List (String × V) →
    Option (List V)
  | [], _, _ => some []
  | p :: ps, args, kwargs =>
    match List.lookup p.1 kwargs with
    | some v => (wrapperArgs ps args kwargs).map (v :: ·)
    | none =>
      match args with
      | a :: rest => (wrapperArgs ps rest kwargs).map (a :: ·)
      | [] => none

/-- `named_gate`: call the wrapped generator with the caller's
positional/keyword arguments (Python binding), then attach the wrapper as
`generator` and the reconstructed declaration-order argument tuple as
`arguments`.  Any raised error (`none`) yields no node. -/
def named_gate {V P : Type} (params : List (String × Option V))
    (gen : List V → Option P) (args : List V) (kwargs : List (String × V)) :
    Option (PyNode P V) :=
  match pyBind params args kwargs with
  | none => none
  | some bound =>
    match gen bound with
    | none => none
    | some payload =>
      match wrapperArgs params args kwargs with
      | none => none
      | some allArgs => some ⟨payload, some allArgs⟩

/-- `named_measurement`: textually the same wrapper as `named_gate`. -/
def named_measurement {V P : Type} (params : List (String × Option V))
    (gen : List V → Option P) (args : List V) (kwargs : List (String × V)) :
    Option (PyNode P V) :=
  match pyBind params args kwargs with
  | none => none
  | some bound =>
    match gen bound with
    | none => none
    | some payload =>
      match wrapperArgs params args kwargs with
      | none => none
      | some allArgs => some ⟨payload, some allArgs⟩

/-- `named_reset`: textually the same wrapper as `named_gate`. -/
def named_reset {V P : Type} (params : List (String × Option V))
    (gen : List V → Option P) (args : List V) (kwargs : List (String × V)) :
    Option (PyNode P V) :=
  match pyBind params args kwargs with
  | none => none
  | some bound =>
    match gen bound with
    | none => none
    | some payload =>
      match wrapperArgs params args kwargs with
      | none => none
      | some allArgs => some ⟨payload, some allArgs⟩

lemma pyBindAux_length {V : Type} :
    ∀ (params : List (String × Option V)) (args : List V) kwargs bound,
      pyBindAux params args kwargs = some bound → bound.length = params.length := by
  intro params
  induction params with
  | nil =>
    intro args kwargs bound h
    cases args with
    | nil => simp [pyBindAux] at h; simp [h]
    | cons a as => simp [pyBindAux] at h
  | cons p ps ih =>
    intro args kwargs bound h
    cases args with
    | cons a as =>
      simp only [pyBindAux] at h
      cases haux : pyBindAux ps as kwargs with
      | none => rw [haux] at h; simp at h
      | some b2 =>
        rw [haux] at h
        simp at h
        simp [← h, ih as kwargs b2 haux]
    | nil =>
      simp only [pyBindAux] at h
      cases hk : List.lookup p.1 kwargs with
      | some v =>
        rw [hk] at h
        cases haux : pyBindAux ps [] kwargs with
        | none => rw [haux] at h; simp at h
        | some b2 =>
          rw [haux] at h
          simp at h
          simp [← h, ih [] kwargs b2 haux]
      | none =>
        rw [hk] at h
        cases hd : p.2 with
        | some d =>
          rw [hd] at h
          cases haux : pyBindAux ps [] kwargs with
          | none => rw [haux] at h; simp at h
          | some b2 =>
            rw [haux] at h
            simp at h
            simp [← h, ih [] kwargs b2 haux]
        | none => rw [hd] at h; simp at h

lemma pyBindAux_all_positional {V : Type} :
    ∀ (params : List (String × Option V)) (bound : List V),
      bound.length = params.length → pyBindAux params bound [] = some bound := by
  intro params
  induction params with
  | nil =>
    intro bound h
    cases bound with
    | nil => simp [pyBindAux]
    | cons b bs => simp at h
  | cons p ps ih =>
    intro bound h
    cases bound with
    | nil => simp at h
    | cons b bs =>
      simp only [List.length_cons, Nat.succ.injEq] at h
      simp [pyBindAux, ih bs h]

lemma wrapperArgs_all_positional {V : Type} :
    ∀ (params : List (String × Option V)) (bound : List V),
      bound.length = params.length → wrapperArgs params bound [] = some bound := by
  intro params
  induction params with
  | nil =>
    intro bound h
    cases bound with
    | nil => simp [wrapperArgs]
    | cons b bs => simp at h
  | cons p ps ih =>
    intro bound h
    cases bound with
    | nil => simp at h
    | cons b bs =>
      simp only [List.length_cons, Nat.succ.injEq] at h
      simp [wrapperArgs, ih bs h]

/-- If the parameters that received positional arguments were not also
passed as keywords, then the wrapper's reconstruction loop recomputes
exactly the declaration-order binding produced by the call itself. -/
lemma wrapperArgs_eq_pyBindAux {V : Type} :
    ∀ (params : List (String × Option V)) (args : List V) kwargs bound largs,
      (∀ p ∈ params.take args.length, List.lookup p.1 kwargs = none) →
      pyBindAux params args kwargs = some bound →
      wrapperArgs params args kwargs = some largs → largs = bound := by
  intro params
  induction params with
  | nil =>
    intro args kwargs bound largs _ hb hw
    cases args with
    | nil =>
      simp [pyBindAux] at hb
      simp [wrapperArgs] at hw
      rw [hb, hw]
    | cons a as => simp [pyBindAux] at hb
  | cons p ps ih =>
    intro args kwargs bound largs hk hb hw
    cases args with
    | cons a as =>
      have hp : List.lookup p.1 kwargs = none := by
        apply hk
        simp [List.take]
      simp only [pyBindAux] at hb
      simp only [wrapperArgs, hp] at hw
      cases haux : pyBindAux ps as kwargs with
      | none => rw [haux] at hb; simp at hb
      | some b2 =>
        rw [haux] at hb
        simp at hb
        cases hwx : wrapperArgs ps as kwargs with
        | none => rw [hwx] at hw; simp at hw
        | some l2 =>
          rw [hwx] at hw
          simp at hw
          have := ih as kwargs b2 l2 (fun q hq => hk q (by simp [List.take, hq])) haux hwx
          rw [← hb, ← hw, this]
    | nil =>
      simp only [pyBindAux] at hb
      simp only [wrapperArgs] at hw
      cases hkp : List.lookup p.1 kwargs with
      | some v =>
        rw [hkp] at hb hw
        cases haux : pyBindAux ps [] kwargs with
        | none => rw [haux] at hb; simp at hb
        | some b2 =>
          rw [haux] at hb
          simp at hb
          cases hwx : wrapperArgs ps [] kwargs with
          | none => rw [hwx] at hw; simp at hw
          | some l2 =>
            rw [hwx] at hw
            simp at hw
            have := ih [] kwargs b2 l2 (by simp) haux hwx
            rw [← hb, ← hw, this]
      | none => rw [hkp] at hw; simp at hw

/-- The wrapper protocol, in one statement: whenever a wrapper call produces
a node, the node arguments equal the declaration-order binding of the
caller's positional/keyword arguments, the payload is the generator applied
to that binding, and re-invoking the wrapper positionally on the stored
arguments reproduces the identical node. -/
lemma named_gate_spec {V P : Type} (params : List (String × Option V))
    (gen : List V → Option P) (args : List V) (kwargs : List (String × V))
    (node : PyNode P V) (h : named_gate params gen args kwargs = some node) :
    ∃ bound, pyBind params args kwargs = some bound ∧
      node.arguments = some bound ∧ gen bound = some node.payload ∧
      named_gate params gen bound [] = some node := by
  unfold named_gate at h
  cases hb : pyBind params args kwargs with
  | none => rw [hb] at h; simp at h
  | some bound =>
    rw [hb] at h
    simp only at h
    cases hg : gen bound with
    | none => rw [hg] at h; simp at h
    | some payload =>
      rw [hg] at h
      simp only at h
      cases hw : wrapperArgs params args kwargs with
      | none => rw [hw] at h; simp at h
      | some allArgs =>
        rw [hw] at h
        simp only [Option.some_inj] at h
        have hkw : ∀ p ∈ params.take args.length, List.lookup p.1 kwargs = none := by
          intro p hp
          unfold pyBind at hb
          by_cases hany :
              (params.take args.length).any (fun p => (List.lookup p.1 kwargs).isSome) = true
          · rw [if_pos hany] at hb; simp at hb
          · rw [List.any_eq_true] at hany
            push_neg at hany
            have hns := hany p hp
            rw [← Option.not_isSome_iff_eq_none]
            simpa using hns
        have haux : pyBindAux params args kwargs = some bound := by
          unfold pyBind at hb
          split at hb
          · simp at hb
          · split at hb
            · simp at hb
            · exact hb
        have hargs : allArgs = bound :=
          wrapperArgs_eq_pyBindAux params args kwargs bound allArgs hkw haux hw
        have hlen : bound.length = params.length := pyBindAux_length params args kwargs bound haux
        refine ⟨bound, rfl, ?_, ?_, ?_⟩
        · rw [← h, hargs]
        · rw [← h, hg]
        · unfold named_gate pyBind
          rw [if_neg (by simp), if_neg (by simp)]
          rw [pyBindAux_all_positional params bound hlen]
          simp only [hg]
          rw [wrapperArgs_all_positional params bound hlen]
          rw [← h, hargs]

/-! ## Default measurements (`opensquirrel/default_measurements.py`) -/

/-- Python values flowing through the measurement generators: integers,
`Qubit`/`Bit` objects (wrapping an index), lists, tuples and `None`. -/
inductive PyVal where
  | intV (n : ℤ)
  | qubitV (n : ℤ)
  | bitV (n : ℤ)
  | listV (l : List PyVal)
  | tupleV (l : List PyVal)
  | noneV

/-- The declared parameters of `Measure.__init__`:
`qubit`, `bit`, `axis=(0, 0, 1)`, `generator=None`, `arguments=None`. -/
def measureInitParams : List (String × Option PyVal) :=
  [("qubit", none), ("bit", none),
   ("axis", some (.tupleV [.intV 0, .intV 0, .intV 1])),
   ("generator", some .noneV), ("arguments", some .noneV)]

/-- The attribute access `q.index` (an `AttributeError` for a non-`Qubit`
value is modelled as `none`). -/
def qubitIndex : PyVal → Option PyVal
  | .qubitV n => some (.intV n)
  | _ => none

/-- The body of `measure`:
`Measure(qubits=[q.index, ], bit=b, axis=(0, 0, 1))` — note the keyword
`qubits`, which is not among `Measure.__init__`'s declared parameters.
The payload of a successful construction would be the bound constructor
arguments in declaration order. -/
def measureBody (bound : List PyVal) : Option (List PyVal) := do
  let q := bound.getD 0 .noneV
  let b := bound.getD 1 .noneV
  let qi ← qubitIndex q
  pyBind measureInitParams []
    [("qubits", .listV [qi]), ("bit", b), ("axis", .tupleV [.intV 0, .intV 0, .intV 1])]

/-- The body of `measure_z`:
`Measure(qubits=[q, ], bit=b, axis=(0, 0, 1))` — again the keyword
`qubits`. -/
def measureZBody (bound : List PyVal) : Option (List PyVal) :=
  let q := bound.getD 0 .noneV
  let b := bound.getD 1 .noneV
  pyBind measureInitParams []
    [("qubits", .listV [q]), ("bit", b), ("axis", .tupleV [.intV 0, .intV 0, .intV 1])]

/-- The registered generator `measure(q, b)` (wrapped by
`named_measurement`), called with positional arguments `q`, `b`. -/
def measureCall (q b : PyVal) : Option (PyNode (List PyVal) PyVal) :=
  named_measurement [("q", none), ("b", none)] measureBody [q, b] []

/-- The registered generator `measure_z(q, b)` (wrapped by
`named_measurement`), called with positional arguments `q`, `b`. -/
def measureZCall (q b : PyVal) : Option (PyNode (List PyVal) PyVal) :=
  named_measurement [("q", none), ("b", none)] measureZBody [q, b] []

/-! ## ABA decomposition engine
(`opensquirrel/decomposer/aba_decomposer.py`) -/

/-- The construction-time error of `get_decomposition_angles`
(`ValueError("Angle needs to be normalized")`; spec section 7 calls it
`UnnormalizedAngle`). -/
inductive DecomposerError where
  | unnormalizedAngle
deriving DecidableEq

/-- An ABA decomposer instantiation, identified by the indices of its two
generator axes in the canonical list `[Rx, Ry, Rz]`
(`self.index_a = self._gate_list.index(self.ra)`, likewise `index_b`). -/
structure ABAInst where
  ia : Fin 3
  ib : Fin 3

/-- `XYXDecomposer`: ra = Rx, rb = Ry. -/
def XYXDecomposer : ABAInst := ⟨0, 1⟩

/-- `XZXDecomposer`: ra = Rx, rb = Rz. -/
def XZXDecomposer : ABAInst := ⟨0, 2⟩

/-- `YXYDecomposer`: ra = Ry, rb = Rx. -/
def YXYDecomposer : ABAInst := ⟨1, 0⟩

/-- `YZYDecomposer`: ra = Ry, rb = Rz. -/
def YZYDecomposer : ABAInst := ⟨1, 2⟩

/-- `ZXZDecomposer`: ra = Rz, rb = Rx. -/
def ZXZDecomposer : ABAInst := ⟨2, 0⟩

/-- `ZYZDecomposer`: ra = Rz, rb = Ry. -/
def ZYZDecomposer : ABAInst := ⟨2, 1⟩

open Classical in
/-- The degenerate branch of `get_decomposition_angles`
(`abs(alpha - math.pi) < ATOL`), returning the triple `(p, theta2, m)`. -/
noncomputable def gdaDegenerate (a b : ℝ) : ℝ × ℝ × ℝ :=
  if |a| < ATOL then (0, π, 2 * Real.arccos b)
  else if |a - 1| < ATOL ∨ |a + 1| < ATOL then (π, 2 * Real.arccos a, π)
  else (π, 2 * Real.arccos a, 2 * Real.arccos (b / Real.sqrt (1 - a ^ 2)))

open Classical in
/-- The general branch of `get_decomposition_angles`, returning the triple
`(p, theta2, m)`. -/
noncomputable def gdaGeneral (alpha a b : ℝ) : ℝ × ℝ × ℝ :=
  let p := 2 * atan2 (a * Real.sin (alpha / 2)) (Real.cos (alpha / 2))
  let acosArg :=
    clamp (Real.cos (alpha / 2) * Real.sqrt (1 + (a * Real.tan (alpha / 2)) ^ 2))
  let theta2 := copysign (2 * Real.arccos acosArg) alpha
  let m :=
    if |Real.sin (theta2 / 2)| < ATOL then p
    else 2 * Real.arccos (clamp (b * Real.sin (alpha / 2) / Real.sin (theta2 / 2)))
  (p, theta2, m)

/-- The common tail of `get_decomposition_angles`:
`theta1 = (p + m) / 2; theta3 = p - theta1`. -/
noncomputable def gdaAssemble : ℝ × ℝ × ℝ → ℝ × ℝ × ℝ :=
  fun t => ((t.1 + t.2.2) / 2, t.2.1, t.1 - (t.1 + t.2.2) / 2)

open Classical in
/-- `ABADecomposer.get_decomposition_angles(alpha, axis)`: re-wrap the axis
through the `Axis` constructor (normalization), reject an `alpha` outside
`(-π + ATOL, π + ATOL]` (the source guard is
`not (-math.pi + ATOL < alpha <= math.pi + ATOL)`), then compute
`(theta1, theta2, theta3)` through the degenerate (`alpha ≈ π`) or general
branch. -/
noncomputable def get_decomposition_angles (inst : ABAInst) (alpha : ℝ)
    (axisIn : Vec3) : Except DecomposerError (ℝ × ℝ × ℝ) :=
  if ¬(-π + ATOL < alpha ∧ alpha ≤ π + ATOL) then .error .unnormalizedAngle
  else if |alpha - π| < ATOL then
    .ok (gdaAssemble (gdaDegenerate (comp (normAxis axisIn) inst.ia)
      (comp (normAxis axisIn) inst.ib)))
  else
    .ok (gdaAssemble (gdaGeneral alpha (comp (normAxis axisIn) inst.ia)
      (comp (normAxis axisIn) inst.ib)))

/-- Modelled from the spec: the native gate generators Rx/Ry/Rz of
`opensquirrel/default_gates.py`, each a named generator
`(qubit, angle) -> BlochSphereRotation` about the corresponding canonical
axis with phase 0 (spec section 6).  The canonical axis unit vector for a
generator index in `[Rx, Ry, Rz]`. -/
def stdAxis : Fin 3 → Vec3
  | 0 => (1, 0, 0)
  | 1 => (0, 1, 0)
  | 2 => (0, 0, 1)

/-- The gate built by the decomposer's `self.ra(g.qubit, Float(theta))`
(respectively `self.rb(...)`) for a generator of index `i`: a
`BlochSphereRotation` about the canonical axis `i` with the given angle and
phase 0. -/
noncomputable def rotGate (i : Fin 3) (q : ℕ) (theta : ℝ) : Gate :=
  Gate.bsr (mkBSR q (stdAxis i) theta 0)

/-- `Gate.is_identity`, by cases on the gate kind: a rotation is the
identity when its (normalized) angle and phase are both within ATOL of 0;
a matrix gate when its entries are `np.allclose` to the identity matrix;
a controlled gate delegates to its target. -/
noncomputable def gateIsIdentity : Gate → Prop
  | .bsr b => bsrIsIdentity b
  | .matrixGate g =>
      ∀ i < 2 ^ g.operands.length, ∀ j < 2 ^ g.operands.length,
        Complex.abs (((g.matrix.entries.getD i []).getD j 0) -
          (if i = j then 1 else 0)) ≤ 1e-8 + 1e-5 * Complex.abs (if i = j then 1 else 0)
  | .controlled _ target => gateIsIdentity target

open Classical in
/-- Modelled from the spec:
`opensquirrel/utils/identity_filter.filter_out_identities` — "drop any of
the three that is an identity rotation (angle ≈ 0 and phase ≈ 0) — output
order preserved" (spec section 4.4). -/
noncomputable def filter_out_identities : List Gate → List Gate
  | [] => []
  | g :: rest =>
    if gateIsIdentity g then filter_out_identities rest
    else g :: filter_out_identities rest

/-- `ABADecomposer.decompose(g)`: a gate that is not a
`BlochSphereRotation` passes through unchanged as `[g]`; a rotation is
decomposed via `get_decomposition_angles(g.angle, g.axis)` into
`[ra(theta1), rb(theta2), ra(theta3)]` with identity rotations filtered
out. -/
noncomputable def decompose (inst : ABAInst) (g : Gate) :
    Except DecomposerError (List Gate) :=
  match g with
  | .bsr b =>
    match get_decomposition_angles inst b.angle b.axis with
    | .error e => .error e
    | .ok t =>
      .ok (filter_out_identities
        [rotGate inst.ia b.qubit t.1, rotGate inst.ib b.qubit t.2.1,
         rotGate inst.ia b.qubit t.2.2])
  | g => .ok [g]

/-! ## Gate equivalence oracle (spec sections 4.3 and 6)

The circuit-matrix compiler and the matrix comparison of
`opensquirrel/common.py` are not among the provided sources; they are
modelled from the spec. -/

/-- The Pauli X matrix. -/
def pauliX : Matrix (Fin 2) (Fin 2) ℂ := !![0, 1; 1, 0]

/-- The Pauli Y matrix. -/
def pauliY : Matrix (Fin 2) (Fin 2) ℂ := !![0, -Complex.I; Complex.I, 0]

/-- The Pauli Z matrix. -/
def pauliZ : Matrix (Fin 2) (Fin 2) ℂ := !![1, 0; 0, -1]

/-- Modelled from the spec: the single-qubit unitary of a Bloch sphere
rotation "via the standard exponential-of-Pauli-dot-axis formula"
(spec section 6): `cos(α/2)·I − i·sin(α/2)·(n·σ)`.
The global phase is not included here, since the claims compare unitaries
up to a global phase anyway. -/
noncomputable def rotU (v : Vec3) (alpha : ℝ) : Matrix (Fin 2) (Fin 2) ℂ :=
  ((Real.cos (alpha / 2) : ℂ)) • (1 : Matrix (Fin 2) (Fin 2) ℂ) -
    (Complex.I * (Real.sin (alpha / 2) : ℂ)) •
      ((v.1 : ℂ) • pauliX + (v.2.1 : ℂ) • pauliY + (v.2.2 : ℂ) • pauliZ)

/-- Modelled from the spec:
`are_matrices_equivalent_up_to_global_phase` with an explicit tolerance —
"test the two matrices for equivalence up to a scalar global phase:
∃ θ : ‖M1 − e^{iθ} M2‖ ≈ 0" (spec section 4.3), read entrywise with
tolerance `t`. -/
def equivUpToGlobalPhase (A B : Matrix (Fin 2) (Fin 2) ℂ) (t : ℝ) : Prop :=
  ∃ z : ℂ, Complex.abs z = 1 ∧ ∀ i j, Complex.abs (A i j - z * B i j) ≤ t

/-! ## Helper lemmas about `get_decomposition_angles` -/

lemma gda_guard_fail {inst : ABAInst} {alpha : ℝ} {v : Vec3}
    (h : ¬(-π + ATOL < alpha ∧ alpha ≤ π + ATOL)) :
    get_decomposition_angles inst alpha v = .error .unnormalizedAngle := by
  unfold get_decomposition_angles
  rw [if_pos h]

lemma gda_degenerate_eq {inst : ABAInst} {alpha : ℝ} {v : Vec3}
    (hg : -π + ATOL < alpha ∧ alpha ≤ π + ATOL) (hd : |alpha - π| < ATOL) :
    get_decomposition_angles inst alpha v =
      .ok (gdaAssemble (gdaDegenerate (comp (normAxis v) inst.ia)
        (comp (normAxis v) inst.ib))) := by
  unfold get_decomposition_angles
  rw [if_neg (not_not_intro hg), if_pos hd]

lemma gda_general_eq {inst : ABAInst} {alpha : ℝ} {v : Vec3}
    (hg : -π + ATOL < alpha ∧ alpha ≤ π + ATOL) (hd : ¬ |alpha - π| < ATOL) :
    get_decomposition_angles inst alpha v =
      .ok (gdaAssemble (gdaGeneral alpha (comp (normAxis v) inst.ia)
        (comp (normAxis v) inst.ib))) := by
  unfold get_decomposition_angles
  rw [if_neg (not_not_intro hg), if_neg hd]

lemma gdaGeneral_eval (alpha a b : ℝ) :
    gdaGeneral alpha a b =
      (2 * atan2 (a * Real.sin (alpha / 2)) (Real.cos (alpha / 2)),
       copysign (2 * Real.arccos (clamp (Real.cos (alpha / 2) *
         Real.sqrt (1 + (a * Real.tan (alpha / 2)) ^ 2)))) alpha,
       if |Real.sin (copysign (2 * Real.arccos (clamp (Real.cos (alpha / 2) *
            Real.sqrt (1 + (a * Real.tan (alpha / 2)) ^ 2)))) alpha / 2)| < ATOL
       then 2 * atan2 (a * Real.sin (alpha / 2)) (Real.cos (alpha / 2))
       else 2 * Real.arccos (clamp (b * Real.sin (alpha / 2) /
         Real.sin (copysign (2 * Real.arccos (clamp (Real.cos (alpha / 2) *
           Real.sqrt (1 + (a * Real.tan (alpha / 2)) ^ 2)))) alpha / 2)))) := rfl

/-! ## Claim theorems -/

/-- Claim C2 (supporting theorem for a code bug): the guard of
`get_decomposition_angles` raises `UnnormalizedAngle` exactly when `alpha`
lies outside `(-π + ATOL, π + ATOL]` — not outside `(-π - ATOL, π + ATOL]`
as the claim states.  In particular `alpha = -π` lies inside the claim's
interval `(-π - ATOL, π + ATOL]`, yet the function raises on it for every
decomposer instantiation and every axis. -/
theorem unnormalized_angle_guard :
    (∀ (inst : ABAInst) (v : Vec3) (alpha : ℝ),
      get_decomposition_angles inst alpha v = .error .unnormalizedAngle ↔
        ¬(-π + ATOL < alpha ∧ alpha ≤ π + ATOL)) ∧
    (∀ (inst : ABAInst) (v : Vec3),
      get_decomposition_angles inst (-π) v = .error .unnormalizedAngle) ∧
    (-π - ATOL < -π ∧ -π ≤ π + ATOL) := by
  have hA := ATOL_pos
  have hpi := Real.pi_pos
  refine ⟨fun inst v alpha => ?_, fun inst v => ?_, by linarith, by linarith⟩
  · constructor
    · intro h
      by_contra hg
      by_cases hd : |alpha - π| < ATOL
      · rw [gda_degenerate_eq hg hd] at h
        exact absurd h (by simp)
      · rw [gda_general_eq hg hd] at h
        exact absurd h (by simp)
    · exact gda_guard_fail
  · apply gda_guard_fail
    rintro ⟨h1, _⟩
    linarith

/-- Claim C5: `MatrixGate` construction fails exactly when fewer than 2
operands are supplied (error `InvalidOperandCount`), an operand qubit is
repeated (`DuplicateOperand`), or the matrix shape differs from
`(2^n, 2^n)` (`MatrixShapeMismatch`); otherwise the matrix and operand
list are stored unchanged. -/
theorem matrix_gate_construction (m : NPMatrix) (ops : List ℕ) :
    ((∃ e, mkMatrixGate m ops = .error e) ↔
      (ops.length < 2 ∨ ¬ops.Nodup ∨
        m.shape ≠ (2 ^ ops.length, 2 ^ ops.length))) ∧
    (ops.length < 2 → mkMatrixGate m ops = .error .invalidOperandCount) ∧
    (¬ops.Nodup → mkMatrixGate m ops = .error .duplicateOperand) ∧
    (2 ≤ ops.length → ops.Nodup → m.shape ≠ (2 ^ ops.length, 2 ^ ops.length) →
      mkMatrixGate m ops = .error .matrixShapeMismatch) ∧
    (2 ≤ ops.length → ops.Nodup → m.shape = (2 ^ ops.length, 2 ^ ops.length) →
      mkMatrixGate m ops = .ok ⟨m, ops⟩) := by
  have hlen2 : ∀ l : List ℕ, l.length < 2 → l.Nodup := by
    intro l h
    match l with
    | [] => simp
    | [a] => simp
    | a :: b :: t => exact absurd h (by simp)
  refine ⟨⟨?_, ?_⟩, ?_, ?_, ?_, ?_⟩
  · rintro ⟨e, he⟩
    by_contra hcon
    push_neg at hcon
    obtain ⟨hl, hn, hs⟩ := hcon
    unfold mkMatrixGate at he
    rw [if_neg (not_lt.2 hl), if_neg (not_not_intro hn), if_neg (not_not_intro hs)] at he
    exact absurd he (by simp)
  · intro h
    unfold mkMatrixGate
    by_cases h1 : ops.length < 2
    · exact ⟨.invalidOperandCount, by rw [if_pos h1]⟩
    · rw [if_neg h1]
      by_cases h2 : ops.Nodup
      · rw [if_neg (not_not_intro h2)]
        have h3 : m.shape ≠ (2 ^ ops.length, 2 ^ ops.length) := by
          rcases h with h | h | h
          · exact absurd h h1
          · exact absurd h2 h
          · exact h
        exact ⟨.matrixShapeMismatch, by rw [if_pos h3]⟩
      · exact ⟨.duplicateOperand, by rw [if_pos h2]⟩
  · intro h
    unfold mkMatrixGate
    rw [if_pos h]
  · intro h
    have h1 : ¬ops.length < 2 := fun hc => h (hlen2 ops hc)
    unfold mkMatrixGate
    rw [if_neg h1, if_pos h]
  · intro h1 h2 h3
    unfold mkMatrixGate
    rw [if_neg (not_lt.2 h1), if_neg (not_not_intro h2), if_pos h3]
  · intro h1 h2 h3
    unfold mkMatrixGate
    rw [if_neg (not_lt.2 h1), if_neg (not_not_intro h2), if_neg (not_not_intro h3)]

/-- Witness for C5: a 4×4 matrix over the distinct operand qubits 0 and 1
is accepted and stored unchanged. -/
theorem matrix_gate_construction_witness :
    2 ≤ ([0, 1] : List ℕ).length ∧ ([0, 1] : List ℕ).Nodup ∧
    mkMatrixGate ⟨(4, 4), [[1, 0, 0, 0], [0, 1, 0, 0], [0, 0, 1, 0], [0, 0, 0, 1]]⟩
        [0, 1] =
      .ok ⟨⟨(4, 4), [[1, 0, 0, 0], [0, 1, 0, 0], [0, 0, 1, 0], [0, 0, 0, 1]]⟩, [0, 1]⟩ :=
  ⟨by norm_num, by decide,
    (matrix_gate_construction
        ⟨(4, 4), [[1, 0, 0, 0], [0, 1, 0, 0], [0, 0, 1, 0], [0, 0, 0, 1]]⟩
        [0, 1]).2.2.2.2 (by norm_num) (by decide) (by decide)⟩

/-- Claim C9: `Measure` equality only compares the qubit and the stored
axes (the latter via `np.allclose` with `atol=ATOL`): two measure nodes on
the same qubit whose stored axes agree componentwise within ATOL are equal,
whatever their classical bits and generator/arguments metadata. -/
theorem measure_eq_ignores_bit (q b1 b2 : ℕ) (v1 v2 : Vec3)
    (g1 g2 : Option String) (a1 a2 : Option (List ℤ))
    (h1 : |v1.1 - v2.1| ≤ ATOL) (h2 : |v1.2.1 - v2.2.1| ≤ ATOL)
    (h3 : |v1.2.2 - v2.2.2| ≤ ATOL) :
    measureEq ⟨q, b1, v1, g1, a1⟩ ⟨q, b2, v2, g2, a2⟩ := by
  refine ⟨rfl, ?_, ?_, ?_⟩ <;> unfold npCloseAtol <;>
    [skip; skip; skip] <;>
    · simp only []
      nlinarith [abs_nonneg v2.1, abs_nonneg v2.2.1, abs_nonneg v2.2.2, h1, h2, h3]

/-- Witness for C9: two measures of qubit 0 along the z axis into different
classical bits, one carrying generator metadata and one not, are equal. -/
theorem measure_eq_ignores_bit_witness :
    measureEq ⟨0, 0, (0, 0, 1), none, none⟩
      ⟨0, 1, (0, 0, 1), some "measure_z", some [0, 1]⟩ :=
  measure_eq_ignores_bit 0 0 1 (0, 0, 1) (0, 0, 1) none (some "measure_z")
    none (some [0, 1]) (by norm_num [ATOL]) (by norm_num [ATOL]) (by norm_num [ATOL])

/-- Claim C10: both registered measurement generators pass the keyword
`qubits` to `Measure.__init__`, which declares no such parameter
(its parameters are `qubit`, `bit`, `axis`, `generator`, `arguments`), so
`measure(q, b)` and `measure_z(q, b)` raise and never produce a node. -/
theorem measure_generators_raise (qn bn : ℤ) :
    measureCall (.qubitV qn) (.bitV bn) = none ∧
    measureZCall (.qubitV qn) (.bitV bn) = none ∧
    measureInitParams.all (fun p => !(p.1 == "qubits")) = true :=
  ⟨rfl, rfl, rfl⟩

/-- Claim C7: for each of the three registration wrappers, whenever a call
with any mix of positional and keyword arguments produces a node, the
node's stored `arguments` are the supplied argument values in the
generator's declared parameter order (the call-time binding `pyBind`), and
re-invoking the node's generator (the wrapper) on `*node.arguments`
reproduces the identical node. -/
theorem generator_round_trip :
    (∀ (V P : Type) (params : List (String × Option V)) (gen : List V → Option P)
        (args : List V) (kwargs : List (String × V)) (node : PyNode P V),
      named_gate params gen args kwargs = some node →
        ∃ bound, pyBind params args kwargs = some bound ∧
          node.arguments = some bound ∧ gen bound = some node.payload ∧
          named_gate params gen bound [] = some node) ∧
    (∀ (V P : Type) (params : List (String × Option V)) (gen : List V → Option P)
        (args : List V) (kwargs : List (String × V)) (node : PyNode P V),
      named_measurement params gen args kwargs = some node →
        ∃ bound, pyBind params args kwargs = some bound ∧
          node.arguments = some bound ∧ gen bound = some node.payload ∧
          named_measurement params gen bound [] = some node) ∧
    (∀ (V P : Type) (params : List (String × Option V)) (gen : List V → Option P)
        (args : List V) (kwargs : List (String × V)) (node : PyNode P V),
      named_reset params gen args kwargs = some node →
        ∃ bound, pyBind params args kwargs = some bound ∧
          node.arguments = some bound ∧ gen bound = some node.payload ∧
          named_reset params gen bound [] = some node) :=
  ⟨fun _ _ params gen args kwargs node h => named_gate_spec params gen args kwargs node h,
   fun _ _ params gen args kwargs node h => named_gate_spec params gen args kwargs node h,
   fun _ _ params gen args kwargs node h => named_gate_spec params gen args kwargs node h⟩

/-- Witness for C7: a generator with parameters `(q, theta)` called as
`f(3, theta=5)` through each wrapper. -/
theorem generator_round_trip_witness :
    (∃ bound, pyBind [("q", (none : Option ℕ)), ("theta", none)] [3] [("theta", 5)] =
        some bound ∧
      (⟨8, some [3, 5]⟩ : PyNode ℕ ℕ).arguments = some bound ∧
      (fun l : List ℕ => some (l.foldl (· + ·) 0)) bound =
        some (⟨8, some [3, 5]⟩ : PyNode ℕ ℕ).payload ∧
      named_gate [("q", none), ("theta", none)] (fun l => some (l.foldl (· + ·) 0))
        bound [] = some ⟨8, some [3, 5]⟩) ∧
    (∃ bound, pyBind [("q", (none : Option ℕ)), ("theta", none)] [3] [("theta", 5)] =
        some bound ∧
      (⟨8, some [3, 5]⟩ : PyNode ℕ ℕ).arguments = some bound ∧
      (fun l : List ℕ => some (l.foldl (· + ·) 0)) bound =
        some (⟨8, some [3, 5]⟩ : PyNode ℕ ℕ).payload ∧
      named_measurement [("q", none), ("theta", none)]
        (fun l => some (l.foldl (· + ·) 0)) bound [] = some ⟨8, some [3, 5]⟩) ∧
    (∃ bound, pyBind [("q", (none : Option ℕ)), ("theta", none)] [3] [("theta", 5)] =
        some bound ∧
      (⟨8, some [3, 5]⟩ : PyNode ℕ ℕ).arguments = some bound ∧
      (fun l : List ℕ => some (l.foldl (· + ·) 0)) bound =
        some (⟨8, some [3, 5]⟩ : PyNode ℕ ℕ).payload ∧
      named_reset [("q", none), ("theta", none)]
        (fun l => some (l.foldl (· + ·) 0)) bound [] = some ⟨8, some [3, 5]⟩) :=
  ⟨generator_round_trip.1 ℕ ℕ [("q", none), ("theta", none)]
      (fun l => some (l.foldl (· + ·) 0)) [3] [("theta", 5)] ⟨8, some [3, 5]⟩ rfl,
   generator_round_trip.2.1 ℕ ℕ [("q", none), ("theta", none)]
      (fun l => some (l.foldl (· + ·) 0)) [3] [("theta", 5)] ⟨8, some [3, 5]⟩ rfl,
   generator_round_trip.2.2 ℕ ℕ [("q", none), ("theta", none)]
      (fun l => some (l.foldl (· + ·) 0)) [3] [("theta", 5)] ⟨8, some [3, 5]⟩ rfl⟩

/-- The axis comparison as the claim words it: components agree within the
plain tolerance ATOL (no relative term). -/
def vecWithinATOL (a b : Vec3) : Prop :=
  |a.1 - b.1| < ATOL ∧ |a.2.1 - b.2.1| < ATOL ∧ |a.2.2 - b.2.2| < ATOL

/-- Claim C3 (counterexample): two constructed axes whose normalized
components differ by less than ATOL but are not identical compare UNEQUAL
under `Axis.__eq__` (which uses exact `np.array_equal`), contradicting the
claim that equality is tolerance-based. -/
theorem axis_eq_not_tolerance_based :
    vecWithinATOL (normAxis (1, 0, 0))
      (normAxis ((10 ^ 18 - 1) / (10 ^ 18 + 1), 2 * 10 ^ 9 / (10 ^ 18 + 1), 0)) ∧
    ¬ axisEq (normAxis (1, 0, 0))
      (normAxis ((10 ^ 18 - 1) / (10 ^ 18 + 1), 2 * 10 ^ 9 / (10 ^ 18 + 1), 0)) := by
  have h1 : normAxis (1, 0, 0) = ((1 : ℝ), (0 : ℝ), (0 : ℝ)) := by
    have hn : norm3 (1, 0, 0) = 1 := by
      unfold norm3
      norm_num
    unfold normAxis
    rw [hn]
    norm_num
  have h2 : normAxis ((10 ^ 18 - 1) / (10 ^ 18 + 1), 2 * 10 ^ 9 / (10 ^ 18 + 1), 0) =
      (((10 ^ 18 - 1) / (10 ^ 18 + 1) : ℝ), (2 * 10 ^ 9 / (10 ^ 18 + 1) : ℝ), (0 : ℝ)) := by
    have hn : norm3 ((10 ^ 18 - 1) / (10 ^ 18 + 1), 2 * 10 ^ 9 / (10 ^ 18 + 1), 0) = 1 := by
      unfold norm3
      rw [show (((10 : ℝ) ^ 18 - 1) / (10 ^ 18 + 1)) ^ 2 +
          ((2 * 10 ^ 9 / (10 ^ 18 + 1) : ℝ)) ^ 2 + (0 : ℝ) ^ 2 = 1 by
        rw [div_pow, div_pow]
        rw [div_add_div_same, zero_pow (by norm_num)]
        rw [add_zero, div_eq_one_iff_eq (by positivity)]
        norm_num]
      exact Real.sqrt_one
    unfold normAxis
    rw [hn]
    norm_num
  rw [h1, h2]
  refine ⟨⟨?_, ?_, ?_⟩, ?_⟩
  · rw [abs_of_nonneg (by norm_num)]
    norm_num [ATOL]
  · rw [abs_of_nonpos (by norm_num)]
    norm_num [ATOL]
  · norm_num [ATOL]
  · intro h
    have := congrArg Prod.fst h
    simp only [] at this
    norm_num at this

/-- Claim C3 (amended): `Axis.__eq__` is exact componentwise equality of the
two stored normalized vectors, with no tolerance. -/
theorem axis_eq_exact (a b : Vec3) :
    axisEq a b ↔
      (comp a 0 = comp b 0 ∧ comp a 1 = comp b 1 ∧ comp a 2 = comp b 2) := by
  unfold axisEq
  constructor
  · intro h
    subst h
    exact ⟨rfl, rfl, rfl⟩
  · rintro ⟨h1, h2, h3⟩
    have e1 : a.1 = b.1 := h1
    have e2 : a.2.1 = b.2.1 := h2
    have e3 : a.2.2 = b.2.2 := h3
    exact Prod.ext e1 (Prod.ext e2 e3)

/-- The BlochSphereRotation equality predicate as the claim words it: same
qubit, phases within ATOL, and axis/angle or negated-axis/negated-angle
each within plain tolerance ATOL. -/
def bsrClaimEq (x y : BSR) : Prop :=
  x.qubit = y.qubit ∧ |x.phase - y.phase| ≤ ATOL ∧
    ((vecWithinATOL x.axis y.axis ∧ |x.angle - y.angle| < ATOL) ∨
      (vecWithinATOL x.axis (negV y.axis) ∧ |x.angle + y.angle| < ATOL))

/-- Claim C4 (amended): `BlochSphereRotation.__eq__` holds iff the qubits
agree, the phases differ by at most ATOL, and either the axes are
`np.allclose` with numpy's DEFAULT tolerances (absolute 1e-8 plus relative
1e-5·|other|) and the angles differ by less than ATOL, or — only when that
direct axis comparison fails — the axis is `np.allclose` to the negated
other axis and the angles sum to less than ATOL in magnitude. -/
theorem bsr_eq_characterization (x y : BSR) :
    bsrEq x y ↔
      (x.qubit = y.qubit ∧ |x.phase - y.phase| ≤ ATOL ∧
        ((npAllcloseV x.axis y.axis ∧ |x.angle - y.angle| < ATOL) ∨
          (¬ npAllcloseV x.axis y.axis ∧ npAllcloseV x.axis (negV y.axis) ∧
            |x.angle + y.angle| < ATOL))) := by
  unfold bsrEq
  split_ifs with h1 h2 h3 h4
  · simp only [false_iff]
    rintro ⟨hq, -, -⟩
    exact h1 hq
  · simp only [false_iff]
    rintro ⟨-, hp, -⟩
    exact absurd h2 (not_lt.2 hp)
  · constructor
    · intro ha
      exact ⟨not_ne_iff.1 h1, not_lt.1 h2, Or.inl ⟨h3, ha⟩⟩
    · rintro ⟨-, -, h | h⟩
      · exact h.2
      · exact absurd h3 h.1
  · constructor
    · intro ha
      exact ⟨not_ne_iff.1 h1, not_lt.1 h2, Or.inr ⟨h3, h4, ha⟩⟩
    · rintro ⟨-, -, h | h⟩
      · exact absurd h.1 h3
      · exact h.2.2
  · simp only [false_iff]
    rintro ⟨-, -, h | h⟩
    · exact absurd h.1 h3
    · exact absurd h.2.1 h4

/-- Claim C4 (counterexample): two rotations of qubit 0 by angle 0 about
two exactly-unit axes near (0.6, 0.8, 0) whose x components differ by about
1.28e-6 — more than ATOL but within numpy's default relative tolerance —
compare EQUAL under `BlochSphereRotation.__eq__` while the claim's
pure-ATOL predicate rejects them, refuting the claimed iff. -/
theorem bsr_eq_not_within_atol :
    bsrEq (mkBSR 0 ((3 : ℝ) / 5, 4 / 5, 0) 0 0)
      (mkBSR 0 (749998999999 / 1250001000001, 1000002000000 / 1250001000001, 0) 0 0) ∧
    ¬ bsrClaimEq (mkBSR 0 ((3 : ℝ) / 5, 4 / 5, 0) 0 0)
      (mkBSR 0 (749998999999 / 1250001000001, 1000002000000 / 1250001000001, 0) 0 0) := by
  have hz : normalize_angle 0 = 0 :=
    normalize_angle_eq_self (by linarith [Real.pi_pos]) (by linarith [Real.pi_pos])
  have hax1 : normAxis ((3 : ℝ) / 5, 4 / 5, 0) = ((3 : ℝ) / 5, (4 : ℝ) / 5, (0 : ℝ)) := by
    have hn : norm3 ((3 : ℝ) / 5, 4 / 5, 0) = 1 := by
      unfold norm3
      rw [show ((3 : ℝ) / 5) ^ 2 + ((4 : ℝ) / 5) ^ 2 + (0 : ℝ) ^ 2 = 1 by norm_num]
      exact Real.sqrt_one
    unfold normAxis
    rw [hn]
    norm_num
  have hax2 : normAxis ((749998999999 : ℝ) / 1250001000001, 1000002000000 / 1250001000001, 0) =
      ((749998999999 : ℝ) / 1250001000001, (1000002000000 : ℝ) / 1250001000001, (0 : ℝ)) := by
    have hn : norm3 ((749998999999 : ℝ) / 1250001000001, 1000002000000 / 1250001000001, 0) = 1 := by
      unfold norm3
      rw [show ((749998999999 : ℝ) / 1250001000001) ^ 2 +
          ((1000002000000 : ℝ) / 1250001000001) ^ 2 + (0 : ℝ) ^ 2 = 1 by
        rw [div_pow, div_pow, div_add_div_same, zero_pow (by norm_num), add_zero,
          div_eq_one_iff_eq (by positivity)]
        norm_num]
      exact Real.sqrt_one
    unfold normAxis
    rw [hn]
    norm_num
  have hB1 : mkBSR 0 ((3 : ℝ) / 5, 4 / 5, 0) 0 0 =
      ⟨0, ((3 : ℝ) / 5, (4 : ℝ) / 5, (0 : ℝ)), 0, 0⟩ := by
    unfold mkBSR
    rw [hax1, hz]
  have hB2 : mkBSR 0 (749998999999 / 1250001000001, 1000002000000 / 1250001000001, 0) 0 0 =
      ⟨0, ((749998999999 : ℝ) / 1250001000001, (1000002000000 : ℝ) / 1250001000001, (0 : ℝ)),
        0, 0⟩ := by
    unfold mkBSR
    rw [hax2, hz]
  rw [hB1, hB2]
  constructor
  · rw [bsr_eq_characterization]
    refine ⟨rfl, by norm_num [ATOL], Or.inl ⟨⟨?_, ?_, ?_⟩, by norm_num [ATOL]⟩⟩
    · show |(3 : ℝ) / 5 - 749998999999 / 1250001000001| ≤
        1e-8 + 1e-5 * |(749998999999 : ℝ) / 1250001000001|
      rw [abs_of_nonneg (by norm_num : (0 : ℝ) ≤ (3 : ℝ) / 5 - 749998999999 / 1250001000001),
        abs_of_nonneg (by positivity : (0 : ℝ) ≤ (749998999999 : ℝ) / 1250001000001)]
      norm_num
    · show |(4 : ℝ) / 5 - 1000002000000 / 1250001000001| ≤
        1e-8 + 1e-5 * |(1000002000000 : ℝ) / 1250001000001|
      rw [abs_of_nonpos (by norm_num : ((4 : ℝ) / 5 - 1000002000000 / 1250001000001) ≤ 0),
        abs_of_nonneg (by positivity : (0 : ℝ) ≤ (1000002000000 : ℝ) / 1250001000001)]
      norm_num
    · show |(0 : ℝ) - 0| ≤ 1e-8 + 1e-5 * |(0 : ℝ)|
      norm_num
  · rintro ⟨-, -, ⟨hax, -⟩ | ⟨hax, -⟩⟩
    · have h1 : |(3 : ℝ) / 5 - 749998999999 / 1250001000001| < ATOL := hax.1
      rw [abs_of_nonneg (by norm_num : (0 : ℝ) ≤ (3 : ℝ) / 5 - 749998999999 / 1250001000001)]
        at h1
      norm_num [ATOL] at h1
    · have h1 : |(3 : ℝ) / 5 - -(749998999999 / 1250001000001)| < ATOL := hax.1
      rw [abs_of_nonneg (by norm_num :
        (0 : ℝ) ≤ (3 : ℝ) / 5 - -(749998999999 / 1250001000001))] at h1
      norm_num [ATOL] at h1

/-- Claim C6: at `alpha = π` (the degenerate branch),
`get_decomposition_angles` never raises; when the indexed axis component
`axis[index_a]` is 0 it returns `theta2 = π`, and when it is ±1 it returns
`theta2 = 2·acos(axis[index_a])` (i.e. 0 or 2π) together with
`theta3 = 0`. -/
theorem degenerate_angle_branch (inst : ABAInst) (v : Vec3) :
    (∃ t, get_decomposition_angles inst π v = .ok t) ∧
    (comp (normAxis v) inst.ia = 0 →
      ∃ t1 t3, get_decomposition_angles inst π v = .ok (t1, π, t3)) ∧
    ((comp (normAxis v) inst.ia = 1 ∨ comp (normAxis v) inst.ia = -1) →
      get_decomposition_angles inst π v =
        .ok (π, 2 * Real.arccos (comp (normAxis v) inst.ia), 0)) := by
  have hA := ATOL_pos
  have hA1 := ATOL_lt_one
  have hpi := Real.pi_gt_three
  have hg : -π + ATOL < π ∧ π ≤ π + ATOL := ⟨by linarith, by linarith⟩
  have hd : |π - π| < ATOL := by
    rw [sub_self, abs_zero]
    exact hA
  refine ⟨?_, ?_, ?_⟩
  · rw [gda_degenerate_eq hg hd]
    exact ⟨_, rfl⟩
  · intro ha
    rw [gda_degenerate_eq hg hd, ha]
    unfold gdaDegenerate
    rw [if_pos (by rw [abs_zero]; exact hA)]
    exact ⟨_, _, rfl⟩
  · intro ha
    rw [gda_degenerate_eq hg hd]
    have hna : ¬ |comp (normAxis v) inst.ia| < ATOL := by
      rcases ha with h | h <;> rw [h]
      · rw [abs_one]
        exact not_lt.2 (le_of_lt hA1)
      · rw [abs_neg, abs_one]
        exact not_lt.2 (le_of_lt hA1)
    have hcond : |comp (normAxis v) inst.ia - 1| < ATOL ∨
        |comp (normAxis v) inst.ia + 1| < ATOL := by
      rcases ha with h | h
      · left
        rw [h, sub_self, abs_zero]
        exact hA
      · right
        rw [h]
        norm_num
        exact hA
    unfold gdaDegenerate
    rw [if_neg hna, if_pos hcond]
    unfold gdaAssemble
    rw [show ((π + π) / 2 : ℝ) = π by ring]
    rw [sub_self]

/-- Witness for C6: the XYX decomposer (index_a = 0) at `alpha = π`, first
with axis (0,0,1) (so `axis[index_a] = 0`), then with axis (1,0,0)
(so `axis[index_a] = 1`). -/
theorem degenerate_angle_branch_witness :
    (∃ t1 t3, get_decomposition_angles XYXDecomposer π (0, 0, 1) = .ok (t1, π, t3)) ∧
    get_decomposition_angles XYXDecomposer π (1, 0, 0) =
      .ok (π, 2 * Real.arccos (comp (normAxis (1, 0, 0)) XYXDecomposer.ia), 0) := by
  have h1 : comp (normAxis ((0 : ℝ), (0 : ℝ), (1 : ℝ))) XYXDecomposer.ia = 0 := by
    have hn : norm3 ((0 : ℝ), (0 : ℝ), (1 : ℝ)) = 1 := by
      unfold norm3
      rw [show ((0 : ℝ) ^ 2 + (0 : ℝ) ^ 2 + (1 : ℝ) ^ 2) = 1 by norm_num]
      exact Real.sqrt_one
    show ((0 : ℝ) / norm3 ((0 : ℝ), (0 : ℝ), (1 : ℝ))) = 0
    rw [hn]
    norm_num
  have h2 : comp (normAxis ((1 : ℝ), (0 : ℝ), (0 : ℝ))) XYXDecomposer.ia = 1 := by
    have hn : norm3 ((1 : ℝ), (0 : ℝ), (0 : ℝ)) = 1 := by
      unfold norm3
      rw [show ((1 : ℝ) ^ 2 + (0 : ℝ) ^ 2 + (0 : ℝ) ^ 2) = 1 by norm_num]
      exact Real.sqrt_one
    show ((1 : ℝ) / norm3 ((1 : ℝ), (0 : ℝ), (0 : ℝ))) = 1
    rw [hn]
    norm_num
  exact ⟨(degenerate_angle_branch XYXDecomposer (0, 0, 1)).2.1 h1,
    (degenerate_angle_branch XYXDecomposer (1, 0, 0)).2.2 (Or.inl h2)⟩

/-! ## Analysis lemmas for the near-identity decomposition (claim C8) -/

lemma abs_arctan (x : ℝ) : |Real.arctan x| = Real.arctan |x| := by
  rcases le_or_lt 0 x with hx | hx
  · rw [abs_of_nonneg hx, abs_of_nonneg]
    have h := Real.arctan_strictMono.monotone hx
    rwa [Real.arctan_zero] at h
  · have hlt : Real.arctan x < 0 := by
      have h := Real.arctan_strictMono hx
      rwa [Real.arctan_zero] at h
    rw [abs_of_neg hx, abs_of_neg hlt, ← Real.arctan_neg]

lemma abs_arctan_mul_tan_le {a h : ℝ} (ha : |a| ≤ 1) (hh : |h| < π / 2) :
    |Real.arctan (a * Real.tan h)| ≤ |h| := by
  have htan : |a * Real.tan h| ≤ |Real.tan h| := by
    rw [abs_mul]
    exact mul_le_of_le_one_left (abs_nonneg _) ha
  have htanabs : |Real.tan h| = Real.tan |h| := by
    rcases le_or_lt 0 h with h0 | h0
    · rw [abs_of_nonneg h0,
        abs_of_nonneg (Real.tan_nonneg_of_nonneg_of_le_pi_div_two h0
          (le_of_lt (lt_of_le_of_lt (le_abs_self h) hh)))]
    · have habsh : |h| = -h := abs_of_neg h0
      have hneg : Real.tan h ≤ 0 := by
        have h1 : 0 ≤ Real.tan (-h) :=
          Real.tan_nonneg_of_nonneg_of_le_pi_div_two (by linarith)
            (by rw [habsh] at hh; linarith)
        rw [Real.tan_neg] at h1
        linarith
      rw [abs_of_nonpos hneg, habsh, Real.tan_neg]
  calc |Real.arctan (a * Real.tan h)| = Real.arctan |a * Real.tan h| := abs_arctan _
    _ ≤ Real.arctan |Real.tan h| := Real.arctan_strictMono.monotone htan
    _ = Real.arctan (Real.tan |h|) := by rw [htanabs]
    _ = |h| := Real.arctan_tan (by linarith [abs_nonneg h, Real.pi_pos]) hh

lemma p_abs_le {alpha a : ℝ} (ha : |a| ≤ 1) (hcos : 0 < Real.cos (alpha / 2))
    (hh : |alpha / 2| < π / 2) :
    |2 * atan2 (a * Real.sin (alpha / 2)) (Real.cos (alpha / 2))| ≤ |alpha| := by
  rw [atan2_pos_x _ _ hcos]
  have harg : a * Real.sin (alpha / 2) / Real.cos (alpha / 2) =
      a * Real.tan (alpha / 2) := by
    rw [Real.tan_eq_sin_div_cos]
    ring
  rw [harg, abs_mul, abs_two]
  have h1 := abs_arctan_mul_tan_le ha hh
  have h2 : |alpha / 2| = |alpha| / 2 := by
    rw [abs_div, abs_two]
  linarith [h1, h2.symm.trans_le (le_refl _)]

lemma theta2_abs_le {alpha a : ℝ} (ha : |a| ≤ 1) (hcos : 0 < Real.cos (alpha / 2))
    (hh : |alpha / 2| ≤ π / 2) :
    |copysign (2 * Real.arccos (clamp (Real.cos (alpha / 2) *
      Real.sqrt (1 + (a * Real.tan (alpha / 2)) ^ 2)))) alpha| ≤ |alpha| := by
  have hX : (0 : ℝ) ≤ 1 + (a * Real.tan (alpha / 2)) ^ 2 := by positivity
  have hc : Real.cos (alpha / 2) ≠ 0 := ne_of_gt hcos
  have hsq : (Real.cos (alpha / 2) * Real.sqrt (1 + (a * Real.tan (alpha / 2)) ^ 2)) ^ 2
      = Real.cos (alpha / 2) ^ 2 + a ^ 2 * Real.sin (alpha / 2) ^ 2 := by
    rw [mul_pow, Real.sq_sqrt hX, Real.tan_eq_sin_div_cos]
    field_simp
    ring
  have hA0 : 0 ≤ Real.cos (alpha / 2) * Real.sqrt (1 + (a * Real.tan (alpha / 2)) ^ 2) :=
    mul_nonneg (le_of_lt hcos) (Real.sqrt_nonneg _)
  have ha2 : a ^ 2 ≤ 1 := by
    rw [← abs_one]
    rw [show a ^ 2 = |a| ^ 2 by rw [sq_abs]]
    rw [abs_one]
    nlinarith [abs_nonneg a]
  have hA2le : (Real.cos (alpha / 2) * Real.sqrt (1 + (a * Real.tan (alpha / 2)) ^ 2)) ^ 2 ≤ 1 := by
    rw [hsq]
    nlinarith [Real.sin_sq_add_cos_sq (alpha / 2), sq_nonneg (Real.sin (alpha / 2))]
  have hA1 : Real.cos (alpha / 2) * Real.sqrt (1 + (a * Real.tan (alpha / 2)) ^ 2) ≤ 1 := by
    nlinarith [hA0, hA2le]
  have hsqrt1 : (1 : ℝ) ≤ Real.sqrt (1 + (a * Real.tan (alpha / 2)) ^ 2) := by
    calc (1 : ℝ) = Real.sqrt 1 := Real.sqrt_one.symm
      _ ≤ Real.sqrt (1 + (a * Real.tan (alpha / 2)) ^ 2) :=
        Real.sqrt_le_sqrt (by nlinarith [sq_nonneg (a * Real.tan (alpha / 2))])
  have hAcos : Real.cos |alpha / 2| ≤
      Real.cos (alpha / 2) * Real.sqrt (1 + (a * Real.tan (alpha / 2)) ^ 2) := by
    rw [Real.cos_abs]
    nlinarith [hcos, hsqrt1]
  have hclamp : clamp (Real.cos (alpha / 2) * Real.sqrt (1 + (a * Real.tan (alpha / 2)) ^ 2))
      = Real.cos (alpha / 2) * Real.sqrt (1 + (a * Real.tan (alpha / 2)) ^ 2) :=
    clamp_of_mem (by linarith) hA1
  have harc : Real.arccos (Real.cos (alpha / 2) *
      Real.sqrt (1 + (a * Real.tan (alpha / 2)) ^ 2)) ≤ |alpha / 2| := by
    have hmem1 : Real.cos |alpha / 2| ∈ Set.Icc (-1 : ℝ) 1 :=
      ⟨Real.neg_one_le_cos _, Real.cos_le_one _⟩
    have hmem2 : Real.cos (alpha / 2) * Real.sqrt (1 + (a * Real.tan (alpha / 2)) ^ 2) ∈
        Set.Icc (-1 : ℝ) 1 := ⟨by linarith, hA1⟩
    have h := Real.strictAntiOn_arccos.antitoneOn hmem1 hmem2 hAcos
    rwa [Real.arccos_cos (abs_nonneg _) (by linarith [Real.pi_pos])] at h
  rw [hclamp, abs_copysign,
    abs_of_nonneg (mul_nonneg (by norm_num) (Real.arccos_nonneg _) :
      (0 : ℝ) ≤ 2 * Real.arccos (Real.cos (alpha / 2) *
        Real.sqrt (1 + (a * Real.tan (alpha / 2)) ^ 2)))]
  have h2 : |alpha / 2| = |alpha| / 2 := by rw [abs_div, abs_two]
  rw [h2] at harc
  linarith

lemma filter_out_identities_nil : filter_out_identities [] = [] := rfl

open Classical in
lemma filter_out_identities_cons_of_identity {g : Gate} {rest : List Gate}
    (h : gateIsIdentity g) :
    filter_out_identities (g :: rest) = filter_out_identities rest := by
  show (if gateIsIdentity g then filter_out_identities rest
    else g :: filter_out_identities rest) = filter_out_identities rest
  rw [if_pos h]

lemma gdaGeneral_small_angle (ang a b : ℝ)
    (hsin : |Real.sin (copysign (2 * Real.arccos (clamp (Real.cos (ang / 2) *
      Real.sqrt (1 + (a * Real.tan (ang / 2)) ^ 2)))) ang / 2)| < ATOL) :
    gdaGeneral ang a b =
      (2 * atan2 (a * Real.sin (ang / 2)) (Real.cos (ang / 2)),
       copysign (2 * Real.arccos (clamp (Real.cos (ang / 2) *
         Real.sqrt (1 + (a * Real.tan (ang / 2)) ^ 2)))) ang,
       2 * atan2 (a * Real.sin (ang / 2)) (Real.cos (ang / 2))) := by
  rw [gdaGeneral_eval, if_pos hsin]

lemma gdaAssemble_of_eq (x y : ℝ) : gdaAssemble (x, y, x) = (x, y, 0) := by
  unfold gdaAssemble
  simp only
  rw [show (x + x) / 2 = x by ring, sub_self]

lemma rotGate_identity_of_small {i : Fin 3} {q : ℕ} {theta : ℝ}
    (h : |theta| < ATOL) : gateIsIdentity (rotGate i q theta) := by
  have hA1 := ATOL_lt_one
  have hpi := Real.pi_gt_three
  obtain ⟨hl, hr⟩ := abs_lt.1 h
  show bsrIsIdentity (mkBSR q (stdAxis i) theta 0)
  unfold mkBSR bsrIsIdentity
  simp only
  constructor
  · rw [normalize_angle_eq_self (by linarith) (by linarith)]
    exact h
  · rw [normalize_angle_eq_self (by linarith [Real.pi_pos]) (by linarith [Real.pi_pos]),
      abs_zero]
    exact ATOL_pos

/-- The decomposition of a stored rotation with normalized near-zero angle
produces three near-zero rotations, all filtered out as identities. -/
lemma decompose_small_angle (inst : ABAInst) (q : ℕ) (w : Vec3) (ang ph : ℝ)
    (hw : ∀ i, |comp w i| ≤ 1) (hidem : normAxis w = w) (hang : |ang| < ATOL) :
    decompose inst (Gate.bsr ⟨q, w, ang, ph⟩) = .ok [] := by
  have hA := ATOL_pos
  have hA1 := ATOL_lt_one
  have hpi := Real.pi_gt_three
  obtain ⟨hl, hr⟩ := abs_lt.1 hang
  have hguard : -π + ATOL < ang ∧ ang ≤ π + ATOL := ⟨by linarith, by linarith⟩
  have hdeg : ¬ |ang - π| < ATOL := by
    rw [abs_of_nonpos (by linarith : ang - π ≤ 0)]
    exact not_lt.2 (by linarith)
  have hbranch := @gda_general_eq inst ang w hguard hdeg
  rw [hidem] at hbranch
  have ha : |comp w inst.ia| ≤ 1 := hw _
  have hcos : 0 < Real.cos (ang / 2) :=
    Real.cos_pos_of_mem_Ioo ⟨by linarith, by linarith⟩
  have hh2 : |ang / 2| < π / 2 := by
    rw [abs_div, abs_two]
    have : |ang| < ATOL := hang
    linarith [abs_lt.2 ⟨hl, hr⟩]
  have hp := p_abs_le ha hcos hh2
  have ht2 := theta2_abs_le ha hcos (le_of_lt hh2)
  have hsin : |Real.sin (copysign (2 * Real.arccos (clamp (Real.cos (ang / 2) *
      Real.sqrt (1 + (comp w inst.ia * Real.tan (ang / 2)) ^ 2)))) ang / 2)| < ATOL := by
    calc |Real.sin (copysign (2 * Real.arccos (clamp (Real.cos (ang / 2) *
          Real.sqrt (1 + (comp w inst.ia * Real.tan (ang / 2)) ^ 2)))) ang / 2)|
        ≤ |copysign (2 * Real.arccos (clamp (Real.cos (ang / 2) *
          Real.sqrt (1 + (comp w inst.ia * Real.tan (ang / 2)) ^ 2)))) ang / 2| :=
          Real.abs_sin_le_abs
      _ = |copysign (2 * Real.arccos (clamp (Real.cos (ang / 2) *
          Real.sqrt (1 + (comp w inst.ia * Real.tan (ang / 2)) ^ 2)))) ang| / 2 := by
          rw [abs_div, abs_two]
      _ ≤ |ang| / 2 := by linarith [ht2]
      _ < ATOL := by linarith [hang, hA]
  rw [gdaGeneral_small_angle _ _ _ hsin, gdaAssemble_of_eq] at hbranch
  have hfilter : filter_out_identities
      [rotGate inst.ia q (2 * atan2 (comp w inst.ia * Real.sin (ang / 2))
        (Real.cos (ang / 2))),
       rotGate inst.ib q (copysign (2 * Real.arccos (clamp (Real.cos (ang / 2) *
         Real.sqrt (1 + (comp w inst.ia * Real.tan (ang / 2)) ^ 2)))) ang),
       rotGate inst.ia q 0] = [] := by
    rw [filter_out_identities_cons_of_identity
        (rotGate_identity_of_small (lt_of_le_of_lt hp hang)),
      filter_out_identities_cons_of_identity
        (rotGate_identity_of_small (lt_of_le_of_lt ht2 hang)),
      filter_out_identities_cons_of_identity
        (rotGate_identity_of_small (by rw [abs_zero]; exact hA)),
      filter_out_identities_nil]
  show (match get_decomposition_angles inst ang w with
    | .error e => Except.error e
    | .ok t => Except.ok (filter_out_identities
        [rotGate inst.ia q t.1, rotGate inst.ib q t.2.1, rotGate inst.ia q t.2.2])) =
    Except.ok ([] : List Gate)
  rw [hbranch]
  simp only
  rw [hfilter]

/-- Claim C8: for every ABA decomposer instantiation, decomposing a
constructed `BlochSphereRotation` whose normalized angle and phase are both
within ATOL of 0 yields the empty gate list, and every gate that is not a
`BlochSphereRotation` passes through unchanged as a one-element list. -/
theorem decompose_identity_and_passthrough :
    (∀ (inst : ABAInst) (q : ℕ) (v : Vec3) (alpha phase : ℝ),
      |normalize_angle alpha| < ATOL → |normalize_angle phase| < ATOL →
      decompose inst (Gate.bsr (mkBSR q v alpha phase)) = .ok []) ∧
    (∀ (inst : ABAInst) (g : Gate), g.isBSRGate = false →
      decompose inst g = .ok [g]) := by
  constructor
  · intro inst q v alpha phase hα _
    show decompose inst
      (Gate.bsr ⟨q, normAxis v, normalize_angle alpha, normalize_angle phase⟩) = .ok []
    exact decompose_small_angle inst q (normAxis v) (normalize_angle alpha)
      (normalize_angle phase)
      (fun i => abs_comp_normAxis_le_one v i) (normAxis_idem v) hα
  · intro inst g hg
    cases g with
    | bsr b => simp [Gate.isBSRGate] at hg
    | matrixGate m => rfl
    | controlled c t => rfl

/-- Witness for C8: the ZYZ decomposer maps the rotation
`BlochSphereRotation(q=0, axis=(1,0,0), angle=0, phase=0)` to the empty
list, and passes a 2-qubit matrix gate through unchanged. -/
theorem decompose_identity_and_passthrough_witness :
    decompose ZYZDecomposer (Gate.bsr (mkBSR 0 (1, 0, 0) 0 0)) = .ok [] ∧
    decompose ZYZDecomposer (Gate.matrixGate ⟨⟨(4, 4), []⟩, [0, 1]⟩) =
      .ok [Gate.matrixGate ⟨⟨(4, 4), []⟩, [0, 1]⟩] := by
  constructor
  · apply decompose_identity_and_passthrough.1
    · rw [normalize_angle_eq_self (by linarith [Real.pi_pos]) (by linarith [Real.pi_pos]),
        abs_zero]
      exact ATOL_pos
    · rw [normalize_angle_eq_self (by linarith [Real.pi_pos]) (by linarith [Real.pi_pos]),
        abs_zero]
      exact ATOL_pos
  · exact decompose_identity_and_passthrough.2 ZYZDecomposer
      (Gate.matrixGate ⟨⟨(4, 4), []⟩, [0, 1]⟩) rfl

/-! ## Claim C1: the ABA round trip fails on axes whose third component is
negative, because `get_decomposition_angles` never reads that component. -/

lemma rotU_z (t : ℝ) :
    rotU (0, 0, 1) t =
      !![(Real.cos (t / 2) : ℂ) - Complex.I * (Real.sin (t / 2) : ℂ), 0;
         0, (Real.cos (t / 2) : ℂ) + Complex.I * (Real.sin (t / 2) : ℂ)] := by
  unfold rotU pauliX pauliY pauliZ
  ext i j
  fin_cases i <;> fin_cases j <;>
    simp [Matrix.sub_apply, Matrix.smul_apply, Matrix.add_apply, Matrix.one_apply]

lemma rotU_y (t : ℝ) :
    rotU (0, 1, 0) t =
      !![(Real.cos (t / 2) : ℂ), -(Real.sin (t / 2) : ℂ);
         (Real.sin (t / 2) : ℂ), (Real.cos (t / 2) : ℂ)] := by
  unfold rotU pauliX pauliY pauliZ
  ext i j
  fin_cases i <;> fin_cases j <;>
    simp [Matrix.sub_apply, Matrix.smul_apply, Matrix.add_apply, Matrix.one_apply] <;>
    ring_nf <;>
    simp [Complex.I_mul_I]

lemma rotU_neg_x (t : ℝ) :
    rotU (-1, 0, 0) t =
      !![(Real.cos (t / 2) : ℂ), Complex.I * (Real.sin (t / 2) : ℂ);
         Complex.I * (Real.sin (t / 2) : ℂ), (Real.cos (t / 2) : ℂ)] := by
  unfold rotU pauliX pauliY pauliZ
  ext i j
  fin_cases i <;> fin_cases j <;>
    simp [Matrix.sub_apply, Matrix.smul_apply, Matrix.add_apply, Matrix.one_apply]

lemma gdaGeneral_pi_div_two : gdaGeneral (π / 2) 0 0 = (0, π / 2, π) := by
  have hpi := Real.pi_pos
  have h4 : (π / 2) / 2 = π / 4 := by ring
  have hs2pos : (0 : ℝ) < Real.sqrt 2 := Real.sqrt_pos.2 (by norm_num)
  have hs2lt : Real.sqrt 2 < 2 := by
    nlinarith [Real.sq_sqrt (show (0 : ℝ) ≤ 2 by norm_num), Real.sqrt_nonneg 2]
  have hs2ge1 : (1 : ℝ) ≤ Real.sqrt 2 :=
    calc (1 : ℝ) = Real.sqrt 1 := Real.sqrt_one.symm
      _ ≤ Real.sqrt 2 := Real.sqrt_le_sqrt (by norm_num)
  have hA : ATOL < Real.sqrt 2 / 2 := by
    rw [ATOL]
    nlinarith
  have hp : 2 * atan2 (0 * Real.sin (π / 2 / 2)) (Real.cos (π / 2 / 2)) = 0 := by
    rw [zero_mul, atan2_pos_x _ _ (by rw [h4, Real.cos_pi_div_four]; positivity),
      zero_div, Real.arctan_zero, mul_zero]
  have hacos : clamp (Real.cos (π / 2 / 2) *
      Real.sqrt (1 + (0 * Real.tan (π / 2 / 2)) ^ 2)) = Real.sqrt 2 / 2 := by
    rw [zero_mul, show ((0 : ℝ) ^ 2) = 0 by norm_num, add_zero, Real.sqrt_one, mul_one,
      h4, Real.cos_pi_div_four]
    exact clamp_of_mem (by linarith) (by linarith)
  have harccos : Real.arccos (Real.sqrt 2 / 2) = π / 4 := by
    rw [← Real.cos_pi_div_four]
    exact Real.arccos_cos (by positivity) (by linarith)
  have htheta2 : copysign (2 * Real.arccos (clamp (Real.cos (π / 2 / 2) *
      Real.sqrt (1 + (0 * Real.tan (π / 2 / 2)) ^ 2)))) (π / 2) = π / 2 := by
    rw [hacos, harccos, show 2 * (π / 4) = π / 2 by ring,
      copysign_of_nonneg _ (by linarith), abs_of_nonneg (by linarith)]
  rw [gdaGeneral_eval, htheta2]
  have hcond : ¬ |Real.sin (π / 2 / 2)| < ATOL := by
    rw [h4, Real.sin_pi_div_four, abs_of_nonneg (by linarith)]
    exact not_lt.2 (le_of_lt hA)
  rw [if_neg hcond, hp]
  have hm : 2 * Real.arccos (clamp (0 * Real.sin (π / 2 / 2) / Real.sin (π / 2 / 2))) = π := by
    rw [zero_mul, zero_div, clamp_of_mem (by norm_num) (by norm_num), Real.arccos_zero]
    ring
  rw [hm]

lemma gda_zyz_neg_x :
    get_decomposition_angles ZYZDecomposer (π / 2) (-1, 0, 0) =
      .ok (π / 2, π / 2, -(π / 2)) := by
  have hA := ATOL_pos
  have hA1 := ATOL_lt_one
  have hpi := Real.pi_gt_three
  have hguard : -π + ATOL < π / 2 ∧ π / 2 ≤ π + ATOL := ⟨by linarith, by linarith⟩
  have hdeg : ¬ |π / 2 - π| < ATOL := by
    rw [abs_of_nonpos (by linarith : π / 2 - π ≤ 0)]
    exact not_lt.2 (by linarith)
  rw [gda_general_eq hguard hdeg]
  have hax : normAxis ((-1 : ℝ), 0, 0) = ((-1 : ℝ), 0, 0) := by
    have hn : norm3 ((-1 : ℝ), 0, 0) = 1 := by
      unfold norm3
      rw [show ((-1 : ℝ)) ^ 2 + (0 : ℝ) ^ 2 + (0 : ℝ) ^ 2 = 1 by norm_num]
      exact Real.sqrt_one
    unfold normAxis
    rw [hn]
    norm_num
  rw [hax]
  have hca : comp ((-1 : ℝ), 0, 0) ZYZDecomposer.ia = 0 := rfl
  have hcb : comp ((-1 : ℝ), 0, 0) ZYZDecomposer.ib = 0 := rfl
  rw [hca, hcb, gdaGeneral_pi_div_two]
  unfold gdaAssemble
  simp only
  rw [show ((0 : ℝ) + π) / 2 = π / 2 by ring, zero_sub]

lemma composite_fin_two (c : ℂ) (hr : c * c = 1 / 2) :
    !![c + Complex.I * c, 0; 0, c - Complex.I * c] * !![c, -c; c, c] *
      !![c - Complex.I * c, 0; 0, c + Complex.I * c] =
    !![c, -(Complex.I * c); -(Complex.I * c), c] := by
  have hI := Complex.I_mul_I
  rw [Matrix.mul_fin_two, Matrix.mul_fin_two]
  ext i j
  fin_cases i <;> fin_cases j <;> simp <;>
    [linear_combination (2 * c) * hr - c ^ 3 * hI;
     linear_combination (2 * Complex.I * c) * hr + c ^ 3 * hI;
     linear_combination (-(2 * Complex.I * c)) * hr + c ^ 3 * hI;
     linear_combination (2 * c) * hr - c ^ 3 * hI]

lemma composite_zyz_matrix :
    rotU (0, 0, 1) (-(π / 2)) * rotU (0, 1, 0) (π / 2) * rotU (0, 0, 1) (π / 2) =
      !![((Real.sqrt 2 / 2 : ℝ) : ℂ), -(Complex.I * ((Real.sqrt 2 / 2 : ℝ) : ℂ));
         -(Complex.I * ((Real.sqrt 2 / 2 : ℝ) : ℂ)), ((Real.sqrt 2 / 2 : ℝ) : ℂ)] := by
  have hr : ((Real.sqrt 2 / 2 : ℝ) : ℂ) * ((Real.sqrt 2 / 2 : ℝ) : ℂ) = 1 / 2 := by
    rw [← Complex.ofReal_mul, div_mul_div_comm, Real.mul_self_sqrt (by norm_num)]
    norm_num
  rw [rotU_z, rotU_y, rotU_z,
    show (-(π / 2)) / 2 = -(π / 4) by ring, show (π / 2) / 2 = π / 4 by ring,
    Real.cos_neg, Real.sin_neg, Real.cos_pi_div_four, Real.sin_pi_div_four]
  rw [show ((-(Real.sqrt 2 / 2) : ℝ) : ℂ) = -((Real.sqrt 2 / 2 : ℝ) : ℂ) from
    Complex.ofReal_neg _]
  rw [show (((Real.sqrt 2 / 2 : ℝ) : ℂ) - Complex.I * -((Real.sqrt 2 / 2 : ℝ) : ℂ)) =
    ((Real.sqrt 2 / 2 : ℝ) : ℂ) + Complex.I * ((Real.sqrt 2 / 2 : ℝ) : ℂ) from by ring]
  rw [show (((Real.sqrt 2 / 2 : ℝ) : ℂ) + Complex.I * -((Real.sqrt 2 / 2 : ℝ) : ℂ)) =
    ((Real.sqrt 2 / 2 : ℝ) : ℂ) - Complex.I * ((Real.sqrt 2 / 2 : ℝ) : ℂ) from by ring]
  exact composite_fin_two _ hr

/-- Claim C1 (refutation): on the ZYZ decomposer with axis (−1, 0, 0) and
angle π/2, `get_decomposition_angles` returns (π/2, π/2, −π/2) — the same
triple as for axis (1, 0, 0), since the algorithm never reads the third
axis component — and the reconstruction Rz(θ3)·Ry(θ2)·Rz(θ1) is NOT
equivalent up to a global phase (within ATOL, or any tolerance below 1)
to the original rotation R((−1,0,0), π/2). -/
theorem aba_round_trip_fails :
    get_decomposition_angles ZYZDecomposer (π / 2) (-1, 0, 0) =
      .ok (π / 2, π / 2, -(π / 2)) ∧
    ¬ equivUpToGlobalPhase
      (rotU (0, 0, 1) (-(π / 2)) * rotU (0, 1, 0) (π / 2) * rotU (0, 0, 1) (π / 2))
      (rotU (-1, 0, 0) (π / 2)) ATOL := by
  refine ⟨gda_zyz_neg_x, ?_⟩
  rintro ⟨z, hz, hcl⟩
  have hT : rotU (-1, 0, 0) (π / 2) =
      !![((Real.sqrt 2 / 2 : ℝ) : ℂ), Complex.I * ((Real.sqrt 2 / 2 : ℝ) : ℂ);
         Complex.I * ((Real.sqrt 2 / 2 : ℝ) : ℂ), ((Real.sqrt 2 / 2 : ℝ) : ℂ)] := by
    rw [rotU_neg_x, show (π / 2) / 2 = π / 4 by ring, Real.cos_pi_div_four,
      Real.sin_pi_div_four]
  have h00p := hcl 0 0
  have h01p := hcl 0 1
  rw [composite_zyz_matrix, hT] at h00p h01p
  have h00 : Complex.abs (((Real.sqrt 2 / 2 : ℝ) : ℂ) -
      z * ((Real.sqrt 2 / 2 : ℝ) : ℂ)) ≤ ATOL := h00p
  have h01 : Complex.abs (-(Complex.I * ((Real.sqrt 2 / 2 : ℝ) : ℂ)) -
      z * (Complex.I * ((Real.sqrt 2 / 2 : ℝ) : ℂ))) ≤ ATOL := h01p
  have hs2ge1 : (1 : ℝ) ≤ Real.sqrt 2 :=
    calc (1 : ℝ) = Real.sqrt 1 := Real.sqrt_one.symm
      _ ≤ Real.sqrt 2 := Real.sqrt_le_sqrt (by norm_num)
  have habsc : Complex.abs ((Real.sqrt 2 / 2 : ℝ) : ℂ) = Real.sqrt 2 / 2 := by
    rw [Complex.abs_ofReal, abs_of_nonneg (by positivity)]
  have hb00 : Real.sqrt 2 / 2 * Complex.abs (1 - z) ≤ ATOL := by
    have he : ((Real.sqrt 2 / 2 : ℝ) : ℂ) - z * ((Real.sqrt 2 / 2 : ℝ) : ℂ) =
        ((Real.sqrt 2 / 2 : ℝ) : ℂ) * (1 - z) := by ring
    rw [he, map_mul, habsc] at h00
    exact h00
  have hb01 : Real.sqrt 2 / 2 * Complex.abs (1 + z) ≤ ATOL := by
    have he : -(Complex.I * ((Real.sqrt 2 / 2 : ℝ) : ℂ)) -
        z * (Complex.I * ((Real.sqrt 2 / 2 : ℝ) : ℂ)) =
        -(Complex.I * ((Real.sqrt 2 / 2 : ℝ) : ℂ) * (1 + z)) := by ring
    rw [he, Complex.abs.map_neg, map_mul, map_mul, Complex.abs_I, habsc, one_mul] at h01
    exact h01
  have htri : (2 : ℝ) ≤ Complex.abs (1 - z) + Complex.abs (1 + z) := by
    have h := Complex.abs.add_le (1 - z) (1 + z)
    rw [show ((1 : ℂ) - z) + (1 + z) = 2 by ring, Complex.abs_two] at h
    exact h
  have hc1 : Complex.abs (1 - z) ≤ 2 * ATOL := by
    nlinarith [AbsoluteValue.nonneg Complex.abs (1 - z)]
  have hc2 : Complex.abs (1 + z) ≤ 2 * ATOL := by
    nlinarith [AbsoluteValue.nonneg Complex.abs (1 + z)]
  rw [ATOL] at hc1 hc2
  norm_num at hc1 hc2
  linarith

end OpenSquirrel
